import Mathlib

/-!
Verification of the agent-army coordination core against its specification.

The definitions below are a shallow embedding of the Python sources:
  * `src/agent_army/core/message_bus.py`  (priority queue, delivery, mentions,
    history, serialization)
  * `src/agent_army/core/base_agent.py`   (retry wrapper, metrics, stop)
  * `src/agent_army/core/registry.py`     (system health aggregation)
  * `src/agent_army/agents/task_manager.py` (subtask dispatch and task state)

Machine integers are modelled as `Nat`; Python dicts as association lists with
Python insertion/update semantics; fallible code returns `Option`.
-/

namespace AgentArmy

/-! ### Priority (message_bus.py, class Priority) -/

/-- The four message priority levels of `Priority(str, Enum)`. -/
inductive Priority where
  | low
  | normal
  | high
  | urgent
  deriving DecidableEq

/-- `Priority.value`: the string value of the enum member. -/
def Priority.value : Priority → String
  | .low => "low"
  | .normal => "normal"
  | .high => "high"
  | .urgent => "urgent"

/-- `Priority.value_int`: integer for priority comparison;
`{"urgent": 0, "high": 1, "normal": 2, "low": 3}`. -/
def Priority.value_int : Priority → Nat
  | .urgent => 0
  | .high => 1
  | .normal => 2
  | .low => 3

/-- `Priority(s)` enum constructor: `some` on a valid value string, else `none`
(Python raises `ValueError`). -/
def Priority.ofString (s : String) : Option Priority :=
  if s = "low" then some .low
  else if s = "normal" then some .normal
  else if s = "high" then some .high
  else if s = "urgent" then some .urgent
  else none

/-! ### The priority queue (message_bus.py, `PrioritizedMessage` and the
`heappush`/`heappop` calls in `send` / `_process_loop`)

`@dataclass(order=True) class PrioritizedMessage` compares by the pair
`(priority, timestamp)` lexicographically (the `message` field has
`compare=False`).  Timestamps come from a wall clock read at enqueue time and
are modelled as `Nat`. -/

/-- `PrioritizedMessage`: wrapper for priority queue ordering.  `priority` is
the `value_int` of the message priority, `timestamp` the enqueue time. -/
structure PrioritizedMessage (M : Type) where
  priority : Nat
  timestamp : Nat
  message : M
  deriving DecidableEq

/-- The `<` of `@dataclass(order=True)`: lexicographic on
`(priority, timestamp)`; the `message` field is excluded (`compare=False`). -/
def pmLt {M : Type} (a b : PrioritizedMessage M) : Prop :=
  a.priority < b.priority ∨ (a.priority = b.priority ∧ a.timestamp < b.timestamp)

instance {M : Type} (a b : PrioritizedMessage M) : Decidable (pmLt a b) := by
  unfold pmLt; infer_instance

/-- Models `heapq.heappop` on the bus `_priority_queue`: removes and returns
the smallest entry under the dataclass order (heapq's documented contract is
to pop the smallest item; among entries with equal `(priority, timestamp)`
keys heapq leaves the choice unspecified, and this model takes the leftmost —
the theorems below only depend on the behaviour at distinct keys). -/
def popMin {M : Type} : List (PrioritizedMessage M) →
    Option (PrioritizedMessage M × List (PrioritizedMessage M))
  | [] => none
  | m :: rest =>
    match popMin rest with
    | none => some (m, [])
    | some (m2, rest2) =>
      if pmLt m2 m then some (m2, m :: rest2) else some (m, rest)

theorem popMin_none_iff {M : Type} (l : List (PrioritizedMessage M)) :
    popMin l = none ↔ l = [] := by
  cases l with
  | nil => simp [popMin]
  | cons m rest =>
    simp only [popMin]
    cases h : popMin rest with
    | none => simp
    | some p =>
      obtain ⟨m2, rest2⟩ := p
      by_cases hlt : pmLt m2 m <;> simp [hlt]

theorem popMin_length {M : Type} (l : List (PrioritizedMessage M))
    (m : PrioritizedMessage M) (rest : List (PrioritizedMessage M))
    (h : popMin l = some (m, rest)) : rest.length + 1 = l.length := by
  induction l generalizing m rest with
  | nil => simp [popMin] at h
  | cons a t ih =>
    simp only [popMin] at h
    cases ht : popMin t with
    | none =>
      rw [ht] at h
      have : t = [] := (popMin_none_iff t).1 ht
      subst this
      simp at h
      obtain ⟨h1, h2⟩ := h
      subst h1; subst h2; simp
    | some p =>
      obtain ⟨m2, rest2⟩ := p
      rw [ht] at h
      by_cases hlt : pmLt m2 a
      · simp [hlt] at h
        obtain ⟨h1, h2⟩ := h
        subst h1; subst h2
        have := ih m2 rest2 ht
        simp only [List.length_cons]
        omega
      · simp [hlt] at h
        obtain ⟨h1, h2⟩ := h
        subst h1; subst h2
        simp

theorem popMin_perm {M : Type} (l : List (PrioritizedMessage M))
    (m : PrioritizedMessage M) (rest : List (PrioritizedMessage M))
    (h : popMin l = some (m, rest)) : l.Perm (m :: rest) := by
  induction l generalizing m rest with
  | nil => simp [popMin] at h
  | cons a t ih =>
    simp only [popMin] at h
    cases ht : popMin t with
    | none =>
      rw [ht] at h
      have : t = [] := (popMin_none_iff t).1 ht
      subst this
      simp at h
      obtain ⟨h1, h2⟩ := h
      subst h1; subst h2
      exact List.Perm.refl _
    | some p =>
      obtain ⟨m2, rest2⟩ := p
      rw [ht] at h
      by_cases hlt : pmLt m2 a
      · simp [hlt] at h
        obtain ⟨h1, h2⟩ := h
        subst h1; subst h2
        have hp : t.Perm (m2 :: rest2) := ih m2 rest2 ht
        exact (List.Perm.cons a hp).trans (List.Perm.swap m2 a rest2)
      · simp [hlt] at h
        obtain ⟨h1, h2⟩ := h
        subst h1; subst h2
        exact List.Perm.refl _

theorem pmLt_asymm {M : Type} {a b : PrioritizedMessage M}
    (h : pmLt a b) : ¬ pmLt b a := by
  unfold pmLt at h ⊢; omega

theorem pmLt_not_trans {M : Type} {a b c : PrioritizedMessage M}
    (h1 : ¬ pmLt b a) (h2 : ¬ pmLt c b) : ¬ pmLt c a := by
  unfold pmLt at h1 h2 ⊢; omega

/-- The popped entry is minimal: nothing remaining is strictly below it. -/
theorem popMin_min {M : Type} (l : List (PrioritizedMessage M))
    (m : PrioritizedMessage M) (rest : List (PrioritizedMessage M))
    (h : popMin l = some (m, rest)) : ∀ x ∈ rest, ¬ pmLt x m := by
  induction l generalizing m rest with
  | nil => simp [popMin] at h
  | cons a t ih =>
    simp only [popMin] at h
    cases ht : popMin t with
    | none =>
      rw [ht] at h
      have : t = [] := (popMin_none_iff t).1 ht
      subst this
      simp at h
      obtain ⟨h1, h2⟩ := h
      subst h1; subst h2
      intro x hx
      simp at hx
    | some p =>
      obtain ⟨m2, rest2⟩ := p
      rw [ht] at h
      by_cases hlt : pmLt m2 a
      · simp [hlt] at h
        obtain ⟨h1, h2⟩ := h
        subst h1; subst h2
        intro x hx
        rcases List.mem_cons.1 hx with hxa | hxr
        · subst hxa; exact pmLt_asymm hlt
        · exact ih m2 rest2 ht x hxr
      · simp [hlt] at h
        obtain ⟨h1, h2⟩ := h
        subst h1; subst h2
        intro x hx
        have hperm : t.Perm (m2 :: rest2) := popMin_perm t m2 rest2 ht
        have hx2 : x ∈ m2 :: rest2 := hperm.mem_iff.1 hx
        rcases List.mem_cons.1 hx2 with hxa | hxr
        · subst hxa; exact hlt
        · exact pmLt_not_trans hlt (ih m2 rest2 ht x hxr)

/-- Models the drain order of `MessageBus._process_loop`: repeatedly
`heappop` the queue and deliver, until empty. -/
def popAll {M : Type} (l : List (PrioritizedMessage M)) :
    List (PrioritizedMessage M) :=
  match h : popMin l with
  | none => []
  | some (m, rest) => m :: popAll rest
termination_by l.length
decreasing_by
  have := popMin_length l m rest h
  omega

theorem popAll_nil {M : Type} : popAll ([] : List (PrioritizedMessage M)) = [] := by
  rw [popAll]
  rfl

theorem popAll_perm {M : Type} :
    ∀ (n : Nat) (l : List (PrioritizedMessage M)), l.length = n →
      (popAll l).Perm l := by
  intro n
  induction n with
  | zero =>
    intro l hl
    have : l = [] := List.length_eq_zero.1 hl
    subst this
    rw [popAll_nil]
  | succ k ih =>
    intro l hl
    rw [popAll]
    cases h : popMin l with
    | none =>
      have : l = [] := (popMin_none_iff l).1 h
      subst this
      simp
    | some p =>
      obtain ⟨m, rest⟩ := p
      have hlen := popMin_length l m rest h
      have hrest : rest.length = k := by omega
      have hp := popMin_perm l m rest h
      exact ((ih rest hrest).cons m).trans hp.symm

theorem popAll_sorted {M : Type} :
    ∀ (n : Nat) (l : List (PrioritizedMessage M)), l.length = n →
      (popAll l).Pairwise (fun a b => ¬ pmLt b a) := by
  intro n
  induction n with
  | zero =>
    intro l hl
    have : l = [] := List.length_eq_zero.1 hl
    subst this
    rw [popAll_nil]
    simp
  | succ k ih =>
    intro l hl
    rw [popAll]
    cases h : popMin l with
    | none => simp
    | some p =>
      obtain ⟨m, rest⟩ := p
      have hlen := popMin_length l m rest h
      have hrest : rest.length = k := by omega
      refine List.Pairwise.cons ?_ (ih rest hrest)
      intro y hy
      have hmem : y ∈ rest := ((popAll_perm rest.length rest rfl).mem_iff).1 hy
      exact popMin_min l m rest h y hmem

/-- Models a sequence of `MessageBus.send` calls filling `_priority_queue`:
each send pushes an entry whose `priority` is `Priority(priority).value_int`
and whose `timestamp` is the wall-clock read at enqueue time — reads occur in
enqueue order, so timestamps are modelled by the enqueue index (starting at
`idx`). -/
def enqueueFrom {M : Type} (idx : Nat) :
    List (Priority × M) → List (PrioritizedMessage (Priority × M))
  | [] => []
  | (p, m) :: rest =>
    { priority := p.value_int, timestamp := idx, message := (p, m) } ::
      enqueueFrom (idx + 1) rest

/-- The queue contents after sending every element of `sends`, in order. -/
def enqueueAll {M : Type} (sends : List (Priority × M)) :
    List (PrioritizedMessage (Priority × M)) :=
  enqueueFrom 0 sends

/-- The order in which `_process_loop` delivers the queued messages. -/
def deliveredSeq {M : Type} (sends : List (Priority × M)) :
    List (PrioritizedMessage (Priority × M)) :=
  popAll (enqueueAll sends)

theorem enqueueFrom_fields {M : Type} (idx : Nat) (sends : List (Priority × M)) :
    ∀ pm ∈ enqueueFrom idx sends,
      pm.priority = pm.message.1.value_int ∧ idx ≤ pm.timestamp := by
  induction sends generalizing idx with
  | nil => intro pm hpm; simp [enqueueFrom] at hpm
  | cons s rest ih =>
    intro pm hpm
    obtain ⟨p, m⟩ := s
    simp only [enqueueFrom, List.mem_cons] at hpm
    rcases hpm with h | h
    · subst h; exact ⟨rfl, Nat.le_refl _⟩
    · have := ih (idx + 1) pm h
      exact ⟨this.1, by omega⟩

theorem enqueueFrom_ts_sorted {M : Type} (idx : Nat)
    (sends : List (Priority × M)) :
    (enqueueFrom idx sends).Pairwise (fun a b => a.timestamp < b.timestamp) := by
  induction sends generalizing idx with
  | nil => simp [enqueueFrom]
  | cons s rest ih =>
    obtain ⟨p, m⟩ := s
    refine List.Pairwise.cons ?_ (ih (idx + 1))
    intro pm hpm
    have := (enqueueFrom_fields (idx + 1) rest pm hpm).2
    simp only
    omega

theorem enqueueFrom_map_message {M : Type} (idx : Nat)
    (sends : List (Priority × M)) :
    (enqueueFrom idx sends).map PrioritizedMessage.message = sends := by
  induction sends generalizing idx with
  | nil => simp [enqueueFrom]
  | cons s rest ih =>
    obtain ⟨p, m⟩ := s
    simp [enqueueFrom, ih (idx + 1)]

theorem enqueueFrom_map_timestamp {M : Type} (idx : Nat)
    (sends : List (Priority × M)) :
    (enqueueFrom idx sends).map PrioritizedMessage.timestamp =
      List.range' idx sends.length := by
  induction sends generalizing idx with
  | nil => simp [enqueueFrom]
  | cons s rest ih =>
    obtain ⟨p, m⟩ := s
    simp [enqueueFrom, List.range', ih (idx + 1)]

/-- **C1.** For every sequence of sends at priorities urgent, high, normal,
low interleaved arbitrarily, the bus delivery loop delivers a permutation of
the sends; timestamps are exactly the enqueue positions; the stored integer
priority is the `value_int` of the send priority; and the delivery order is
non-decreasing in integer priority (so all urgent entries precede high, high
precede normal, normal precede low) with strictly increasing timestamps —
i.e. FIFO enqueue order — within one priority level. -/
theorem messageBus_priority_fifo {M : Type} (sends : List (Priority × M)) :
    ((deliveredSeq sends).map PrioritizedMessage.message).Perm sends ∧
    (enqueueAll sends).map PrioritizedMessage.timestamp =
      List.range sends.length ∧
    (∀ pm ∈ deliveredSeq sends, pm.priority = pm.message.1.value_int) ∧
    (∀ i j : Fin (deliveredSeq sends).length, i < j →
      ((deliveredSeq sends).get i).priority ≤
        ((deliveredSeq sends).get j).priority ∧
      (((deliveredSeq sends).get i).priority =
          ((deliveredSeq sends).get j).priority →
        ((deliveredSeq sends).get i).timestamp <
          ((deliveredSeq sends).get j).timestamp)) := by
  have hperm : (deliveredSeq sends).Perm (enqueueAll sends) :=
    popAll_perm (enqueueAll sends).length (enqueueAll sends) rfl
  refine ⟨?_, ?_, ?_, ?_⟩
  · have := hperm.map PrioritizedMessage.message
    simp only [enqueueAll] at this
    rw [enqueueFrom_map_message] at this
    exact this
  · rw [List.range_eq_range']
    exact enqueueFrom_map_timestamp 0 sends
  · intro pm hpm
    exact (enqueueFrom_fields 0 sends pm (hperm.mem_iff.1 hpm)).1
  · have hsorted : (deliveredSeq sends).Pairwise (fun a b => ¬ pmLt b a) :=
      popAll_sorted (enqueueAll sends).length (enqueueAll sends) rfl
    have hne0 : (enqueueAll sends).Pairwise
        (fun a b => a.timestamp ≠ b.timestamp) :=
      (enqueueFrom_ts_sorted 0 sends).imp (fun h => Nat.ne_of_lt h)
    have hne : (deliveredSeq sends).Pairwise
        (fun a b => a.timestamp ≠ b.timestamp) := by
      refine (List.Perm.pairwise_iff ?_ hperm).2 hne0
      intro a b hab
      exact Ne.symm hab
    have hboth := hsorted.and hne
    have hget := List.pairwise_iff_get.1 hboth
    intro i j hij
    have h := hget i j hij
    obtain ⟨h1, h2⟩ := h
    unfold pmLt at h1
    constructor <;> omega

/-- Concrete send sequence used to witness C1. -/
def c1ExSends : List (Priority × Nat) :=
  [(.normal, 10), (.urgent, 11), (.low, 12), (.urgent, 13), (.high, 14)]

/-- Witness for C1 at a concrete interleaving of priorities. -/
theorem messageBus_priority_fifo_witness :
    ((deliveredSeq c1ExSends).map PrioritizedMessage.message).Perm c1ExSends ∧
    (enqueueAll c1ExSends).map PrioritizedMessage.timestamp =
      List.range c1ExSends.length ∧
    (∀ pm ∈ deliveredSeq c1ExSends, pm.priority = pm.message.1.value_int) ∧
    (∀ i j : Fin (deliveredSeq c1ExSends).length, i < j →
      ((deliveredSeq c1ExSends).get i).priority ≤
        ((deliveredSeq c1ExSends).get j).priority ∧
      (((deliveredSeq c1ExSends).get i).priority =
          ((deliveredSeq c1ExSends).get j).priority →
        ((deliveredSeq c1ExSends).get i).timestamp <
          ((deliveredSeq c1ExSends).get j).timestamp)) :=
  messageBus_priority_fifo c1ExSends

/-! ### Python dict model -/

/-- A Python `dict` as an insertion-ordered association list;
`dictGet d k` models `d.get(k)` (first matching key). -/
def dictGet {K V : Type} [DecidableEq K] : List (K × V) → K → Option V
  | [], _ => none
  | (k1, v) :: rest, k => if k1 = k then some v else dictGet rest k

/-- Python `d[k] = v`: overwrite in place if the key exists, else append. -/
def dictSet {K V : Type} [DecidableEq K] : List (K × V) → K → V → List (K × V)
  | [], k, v => [(k, v)]
  | (k1, v1) :: rest, k, v =>
    if k1 = k then (k1, v) :: rest else (k1, v1) :: dictSet rest k v

/-- Python `d.update(other)`: set each key of `other`, in order. -/
def dictUpdate {K V : Type} [DecidableEq K] (d other : List (K × V)) :
    List (K × V) :=
  other.foldl (fun acc kv => dictSet acc kv.1 kv.2) d

/-! ### Message (message_bus.py, `@dataclass class Message`) -/

/-- The `Message` dataclass.  The payload is a string-keyed dict with string
values, and the creation timestamp is carried opaquely as a `Nat`. -/
structure Message where
  id : String
  sender_id : String
  recipient_id : String
  message_type : String
  payload : List (String × String)
  timestamp : Nat
  priority : Priority
  mentions : List String
  deriving DecidableEq

/-- The dictionary produced by `Message.to_dict`, which always carries the
fixed keys `id, from, to, type, payload, timestamp, priority, mentions`:
field `fromId` models key `from`, `toId` key `to`, `typeTag` key `type`.
`timestamp.isoformat()` and `datetime.fromisoformat` invert each other, so
the timestamp is carried opaquely. -/
structure MessageDict where
  id : String
  fromId : String
  toId : String
  typeTag : String
  payload : List (String × String)
  timestamp : Nat
  priority : String
  mentions : List String
  deriving DecidableEq

/-- `Message.to_dict`. -/
def Message.to_dict (m : Message) : MessageDict :=
  { id := m.id
    fromId := m.sender_id
    toId := m.recipient_id
    typeTag := m.message_type
    payload := m.payload
    timestamp := m.timestamp
    priority := m.priority.value
    mentions := m.mentions }

/-- `Message.from_dict`: rebuilds the message; `Priority(data["priority"])`
raises on an invalid priority string, modelled by `none`.  (The source reads
`priority` and `mentions` with `.get` defaults, but the representation above
always carries both keys.) -/
def Message.from_dict (d : MessageDict) : Option Message :=
  match Priority.ofString d.priority with
  | none => none
  | some p =>
    some { id := d.id
           sender_id := d.fromId
           recipient_id := d.toId
           message_type := d.typeTag
           payload := d.payload
           timestamp := d.timestamp
           priority := p
           mentions := d.mentions }

/-- **C7.** Serializing an Envelope to its external dictionary representation
and parsing it back yields an identical Envelope — in particular identical
sender id, recipient id, message type, payload, priority, and mention list. -/
theorem message_serialization_roundtrip (m : Message) :
    Message.from_dict (Message.to_dict m) = some m := by
  obtain ⟨i, s, r, t, pl, ts, pr, men⟩ := m
  cases pr <;> rfl

/-! ### Message bus directory, mentions and delivery (message_bus.py) -/

/-- Models Python `str.lower()`, character-wise (the agent names and type
tags used as aliases are ASCII). -/
def strLower (s : String) : String := String.mk (s.data.map Char.toLower)

/-- Directory state of the bus: `_agents` (a dict keyed by agent id — here its
key list in insertion order; distinct entries have distinct ids because they
are dict keys) and `_agent_names` (lower-cased name/type alias → agent id). -/
structure BusState where
  agents : List String
  names : List (String × String)
  deriving DecidableEq

/-- `MessageBus.register_agent`: store the agent under its id and record the
lower-cased name and lower-cased type as aliases. -/
def registerAgent (st : BusState) (agentId name agentType : String) : BusState :=
  { agents := if agentId ∈ st.agents then st.agents else st.agents ++ [agentId]
    names := dictSet (dictSet st.names (strLower name) agentId)
      (strLower agentType) agentId }

/-- `MessageBus.get_agent`: lookup by id first, then by lower-cased alias
(the alias target is then fetched from `_agents`, which can miss). -/
def getAgent (st : BusState) (identifier : String) : Option String :=
  if identifier ∈ st.agents then some identifier
  else
    match dictGet st.names (strLower identifier) with
    | some aid => if aid ∈ st.agents then some aid else none
    | none => none

/-- The `\w` class of the `@(\w+)` mention regex (ASCII fragment). -/
def isWordChar (c : Char) : Bool := c.isAlphanum || c = '_'

/-- Models `MENTION_PATTERN.finditer(text)`: the successive `@(\w+)` match
groups, scanning left to right.  (The regex engine resumes scanning after
each match; restarting inside the matched word-char run instead finds no
further `@`, because word characters are never `@` — so resuming at the next
character yields the same match list and keeps the recursion structural.) -/
def mentionTokens : List Char → List (List Char)
  | [] => []
  | c :: rest =>
    if c = '@' then
      let run := rest.takeWhile isWordChar
      if run.isEmpty then mentionTokens rest else run :: mentionTokens rest
    else mentionTokens rest

/-- `MessageBus._parse_mentions`: lower-case each `@token` match and map it
through `_agent_names`, collecting the ids that resolve. -/
def parseMentions (st : BusState) (text : String) : List String :=
  (mentionTokens text.data).filterMap
    (fun tok => dictGet st.names (strLower (String.mk tok)))

/-- `MessageBus.send`: builds the `Message`, parsing `@mentions` from the
payload `text` field when present.  The generated uuid id and the wall-clock
timestamp are supplied by the caller of the model. -/
def sendMessage (st : BusState) (senderId recipientId messageType : String)
    (payload : List (String × String)) (priority : Priority)
    (msgId : String) (timestamp : Nat) : Message :=
  { id := msgId
    sender_id := senderId
    recipient_id := recipientId
    message_type := messageType
    payload := payload
    timestamp := timestamp
    priority := priority
    mentions :=
      match dictGet payload "text" with
      | some t => parseMentions st t
      | none => [] }

/-- The mention-appending loop of `MessageBus._deliver_message`: append every
mentioned agent that is registered and not already a recipient. -/
def addMentions (st : BusState) (base : List String)
    (mentions : List String) : List String :=
  mentions.foldl
    (fun acc aid => if aid ∈ st.agents ∧ aid ∉ acc then acc ++ [aid] else acc)
    base

/-- Recipient computation of `MessageBus._deliver_message`: the resolved
agent (or every registered agent for a broadcast), then the mentions. -/
def deliverRecipients (st : BusState) (m : Message) : List String :=
  let base :=
    if m.recipient_id = "broadcast" then st.agents
    else
      match getAgent st m.recipient_id with
      | some aid => [aid]
      | none => []
  addMentions st base m.mentions

/-- The agents whose `receive_message` is invoked by `_deliver_message`:
every computed recipient except the sender. -/
def deliveredIds (st : BusState) (m : Message) : List String :=
  (deliverRecipients st m).filter (fun aid => aid != m.sender_id)

theorem addMentions_covered (st : BusState) (base : List String)
    (mentions : List String) (hcov : ∀ aid ∈ st.agents, aid ∈ base) :
    addMentions st base mentions = base := by
  induction mentions generalizing base with
  | nil => rfl
  | cons a ms ih =>
    unfold addMentions
    simp only [List.foldl_cons]
    have : (if a ∈ st.agents ∧ a ∉ base then base ++ [a] else base) = base := by
      by_cases ha : a ∈ st.agents
      · have : a ∈ base := hcov a ha
        simp [this]
      · simp [ha]
    rw [this]
    exact ih base hcov

theorem addMentions_mono (st : BusState) (base : List String)
    (mentions : List String) : base ⊆ addMentions st base mentions := by
  induction mentions generalizing base with
  | nil => exact fun a ha => ha
  | cons a ms ih =>
    unfold addMentions
    simp only [List.foldl_cons]
    intro x hx
    by_cases hc : a ∈ st.agents ∧ a ∉ base
    · simp only [hc, if_true]
      exact ih (base ++ [a]) (List.mem_append_left _ hx)
    · simp only [hc, if_false]
      exact ih base hx

theorem addMentions_mem (st : BusState) (base : List String)
    (mentions : List String) (aid : String) (hm : aid ∈ mentions)
    (hreg : aid ∈ st.agents) : aid ∈ addMentions st base mentions := by
  induction mentions generalizing base with
  | nil => simp at hm
  | cons a ms ih =>
    unfold addMentions
    simp only [List.foldl_cons]
    rcases List.mem_cons.1 hm with rfl | hms
    · by_cases hc : aid ∈ base
      · have : (if aid ∈ st.agents ∧ aid ∉ base then base ++ [aid] else base)
            = base := by simp [hc]
        rw [this]
        exact addMentions_mono st base ms hc
      · have : (if aid ∈ st.agents ∧ aid ∉ base then base ++ [aid] else base)
            = base ++ [aid] := by simp [hreg, hc]
        rw [this]
        exact addMentions_mono st (base ++ [aid]) ms
          (List.mem_append_right _ (List.mem_singleton_self aid))
    · by_cases hc : a ∈ st.agents ∧ a ∉ base
      · simp only [hc, if_true]
        exact ih (base ++ [a]) hms
      · simp only [hc, if_false]
        exact ih base hms

theorem addMentions_nodup (st : BusState) (base : List String)
    (mentions : List String) (hnd : base.Nodup) :
    (addMentions st base mentions).Nodup := by
  induction mentions generalizing base with
  | nil => exact hnd
  | cons a ms ih =>
    unfold addMentions
    simp only [List.foldl_cons]
    by_cases hc : a ∈ st.agents ∧ a ∉ base
    · simp only [hc, if_true]
      refine ih (base ++ [a]) ?_
      simp [List.nodup_append, hnd, hc.2]
    · simp only [hc, if_false]
      exact ih base hnd

/-- **C2.** With a duplicate-free directory: every delivery list is
duplicate-free (so no agent's `receive` runs twice for one envelope, even an
agent that is both the primary recipient and mentioned) and never contains
the sender (even a mentioned sender); and for a broadcast envelope the
delivery list is exactly the registered agents other than the sender, each
exactly once, with unregistered agents never delivered to. -/
theorem messageBus_broadcast_delivery (st : BusState)
    (hnd : st.agents.Nodup) :
    (∀ m : Message,
      (deliveredIds st m).Nodup ∧
      m.sender_id ∉ deliveredIds st m ∧
      (∀ aid, (deliveredIds st m).count aid ≤ 1)) ∧
    (∀ m : Message, m.recipient_id = "broadcast" →
      deliveredIds st m = st.agents.filter (fun aid => aid != m.sender_id) ∧
      (∀ aid ∈ st.agents, aid ≠ m.sender_id →
        (deliveredIds st m).count aid = 1) ∧
      (∀ aid, aid ∉ st.agents → aid ∉ deliveredIds st m)) := by
  have hbase : ∀ m : Message,
      (deliverRecipients st m).Nodup := by
    intro m
    unfold deliverRecipients
    by_cases hbc : m.recipient_id = "broadcast"
    · simp only [hbc, if_true]
      exact addMentions_nodup st st.agents m.mentions hnd
    · simp only [hbc, if_false]
      cases hga : getAgent st m.recipient_id with
      | none => exact addMentions_nodup st [] m.mentions (List.nodup_nil)
      | some aid =>
        exact addMentions_nodup st [aid] m.mentions (List.nodup_singleton aid)
  constructor
  · intro m
    have hdnd : (deliveredIds st m).Nodup := (hbase m).filter _
    refine ⟨hdnd, ?_, ?_⟩
    · intro hmem
      have := List.of_mem_filter hmem
      simp at this
    · intro aid
      exact List.nodup_iff_count_le_one.1 hdnd aid
  · intro m hbc
    have hrec : deliverRecipients st m = st.agents := by
      unfold deliverRecipients
      simp only [hbc, if_true]
      exact addMentions_covered st st.agents m.mentions (fun aid ha => ha)
    have hdel : deliveredIds st m =
        st.agents.filter (fun aid => aid != m.sender_id) := by
      unfold deliveredIds
      rw [hrec]
    refine ⟨hdel, ?_, ?_⟩
    · intro aid hreg hne
      rw [hdel]
      refine List.count_eq_one_of_mem (hnd.filter _) ?_
      refine List.mem_filter.2 ⟨hreg, ?_⟩
      simp [hne]
    · intro aid hreg hmem
      rw [hdel] at hmem
      exact hreg (List.mem_of_mem_filter hmem)

/-- Concrete directory used by the C2 witness. -/
def c2ExState : BusState :=
  { agents := ["task_manager_1", "email_writer_2", "quality_control_3"]
    names := [("taskmanager", "task_manager_1"),
              ("task_manager", "task_manager_1"),
              ("emailwriter", "email_writer_2"),
              ("email_writer", "email_writer_2"),
              ("qualitycontrol", "quality_control_3"),
              ("quality_control", "quality_control_3")] }

/-- Witness for C2: a concrete broadcast whose payload text mentions the
sender. -/
theorem messageBus_broadcast_delivery_witness :
    (∀ m : Message,
      (deliveredIds c2ExState m).Nodup ∧
      m.sender_id ∉ deliveredIds c2ExState m ∧
      (∀ aid, (deliveredIds c2ExState m).count aid ≤ 1)) ∧
    (∀ m : Message, m.recipient_id = "broadcast" →
      deliveredIds c2ExState m =
        c2ExState.agents.filter (fun aid => aid != m.sender_id) ∧
      (∀ aid ∈ c2ExState.agents, aid ≠ m.sender_id →
        (deliveredIds c2ExState m).count aid = 1) ∧
      (∀ aid, aid ∉ c2ExState.agents → aid ∉ deliveredIds c2ExState m)) :=
  messageBus_broadcast_delivery c2ExState (by decide)

/-- **C6.** If a registered agent's lower-cased alias is the lower-casing of
an `@name` token of the payload text, the messages built by `send` mention
that agent's id, and delivery includes it even when the primary recipient
resolves to a different agent (and the agent is not the sender). -/
theorem messageBus_mention_delivery (st : BusState)
    (senderId recipientId messageType msgId : String)
    (payload : List (String × String)) (priority : Priority) (ts : Nat)
    (name aid text : String)
    (htext : dictGet payload "text" = some text)
    (htok : name.data ∈ mentionTokens text.data)
    (halias : dictGet st.names (strLower name) = some aid)
    (hreg : aid ∈ st.agents)
    (hsender : aid ≠ senderId)
    (hprimary : getAgent st recipientId ≠ some aid) :
    aid ∈ deliveredIds st
      (sendMessage st senderId recipientId messageType payload priority
        msgId ts) := by
  set m := sendMessage st senderId recipientId messageType payload priority
    msgId ts with hm
  have hmention : aid ∈ m.mentions := by
    rw [hm]
    unfold sendMessage
    simp only [htext]
    unfold parseMentions
    refine List.mem_filterMap.2 ⟨name.data, htok, ?_⟩
    have hstr : String.mk name.data = name := rfl
    rw [hstr]
    exact halias
  have hrecip : aid ∈ deliverRecipients st m := by
    unfold deliverRecipients
    exact addMentions_mem st _ m.mentions aid hmention hreg
  unfold deliveredIds
  refine List.mem_filter.2 ⟨hrecip, ?_⟩
  have hsid : m.sender_id = senderId := rfl
  rw [hsid]
  simp [hsender]

/-- Witness for C6: `@QualityControl` in the text of a message addressed to a
different agent reaches the QualityControl agent. -/
theorem messageBus_mention_delivery_witness :
    "quality_control_3" ∈ deliveredIds c2ExState
      (sendMessage c2ExState "task_manager_1" "email_writer_2" "review"
        [("text", "@QualityControl please check")] Priority.normal
        "msg_000000000001" 7) :=
  messageBus_mention_delivery c2ExState "task_manager_1" "email_writer_2"
    "review" "msg_000000000001" [("text", "@QualityControl please check")]
    Priority.normal 7 "QualityControl" "quality_control_3"
    "@QualityControl please check"
    (by decide) (by decide) (by decide) (by decide) (by decide) (by decide)

/-! ### Message history (message_bus.py, `MessageBus.get_history`) -/

/-- The filtering part of `get_history`: optionally restrict to one message
type, then optionally to one sender.  (`None` filters are skipped; the source
tests the filters for truthiness, which for the string filters used by
callers coincides with presence.) -/
def matchingHistory (history : List Message)
    (messageType senderId : Option String) : List Message :=
  let ms1 :=
    match messageType with
    | some t => history.filter (fun m => m.message_type == t)
    | none => history
  match senderId with
  | some s => ms1.filter (fun m => m.sender_id == s)
  | none => ms1

/-- `MessageBus.get_history`: filter, then return `messages[-limit:]` — for
`limit = 0` the slice `[-0:]` is `[0:]`, the whole list; for positive
`limit` it is the last `limit` elements (all of them when fewer). -/
def get_history (history : List Message) (limit : Nat)
    (messageType senderId : Option String) : List Message :=
  let ms := matchingHistory history messageType senderId
  if limit = 0 then ms else ms.drop (ms.length - limit)

/-- **C10.** `get_history` with limit 0 returns the entire matching history
(the `[-0:]` slice selects all elements), and with a positive limit returns
at most `limit` envelopes, a suffix of the matching history (the most recent
matches, newest last). -/
theorem messageBus_get_history_limit (history : List Message) (limit : Nat)
    (mt sid : Option String) :
    get_history history 0 mt sid = matchingHistory history mt sid ∧
    (0 < limit → (get_history history limit mt sid).length ≤ limit) ∧
    (get_history history limit mt sid).IsSuffix
      (matchingHistory history mt sid) := by
  refine ⟨by simp [get_history], ?_, ?_⟩
  · intro hpos
    unfold get_history
    have : limit ≠ 0 := by omega
    simp only [this, if_false]
    rw [List.length_drop]
    omega
  · unfold get_history
    by_cases h0 : limit = 0
    · simp only [h0, if_true]
      exact List.suffix_refl _
    · simp only [h0, if_false]
      exact List.drop_suffix _ _

/-- A concrete three-message history for the C10 witness. -/
def c10ExHistory : List Message :=
  [{ id := "msg_a", sender_id := "s1", recipient_id := "r1",
     message_type := "test1", payload := [], timestamp := 0,
     priority := Priority.normal, mentions := [] },
   { id := "msg_b", sender_id := "s2", recipient_id := "r1",
     message_type := "test2", payload := [], timestamp := 1,
     priority := Priority.high, mentions := [] },
   { id := "msg_c", sender_id := "s1", recipient_id := "broadcast",
     message_type := "test1", payload := [], timestamp := 2,
     priority := Priority.low, mentions := [] }]

/-- Witness for C10 at a concrete history, with limit 0 and limit 2. -/
theorem messageBus_get_history_limit_witness :
    get_history c10ExHistory 0 (some "test1") none =
      matchingHistory c10ExHistory (some "test1") none ∧
    (get_history c10ExHistory 2 (some "test1") none).length ≤ 2 ∧
    (get_history c10ExHistory 2 (some "test1") none).IsSuffix
      (matchingHistory c10ExHistory (some "test1") none) :=
  ⟨(messageBus_get_history_limit c10ExHistory 0 (some "test1") none).1,
   (messageBus_get_history_limit c10ExHistory 2 (some "test1") none).2.1
     (by decide),
   (messageBus_get_history_limit c10ExHistory 2 (some "test1") none).2.2⟩

/-! ### Agent runtime: metrics, retry wrapper, stop (base_agent.py) -/

/-- `AgentStatus(str, Enum)`. -/
inductive AgentStatus where
  | idle
  | working
  | waiting
  | error
  | completed
  | stopped
  deriving DecidableEq

/-- The `AgentMetrics` fields touched by the retry wrapper (`avg_task_time`
and the wall-clock timing fields are floats irrelevant to the counted
metrics and are not tracked numerically). -/
structure AgentMetrics where
  tasks_completed : Nat
  tasks_failed : Nat
  errors : List String
  deriving DecidableEq

/-- One run of the body of `BaseAgent._process_message_with_retry`: invoke
`process_message` (the handler; `none` = success, `some e` = the raised
error text).  Success bumps `tasks_completed`; failure bumps `tasks_failed`,
appends the formatted error, and re-raises to the decorator. -/
def attemptOnce (handler : Nat → Option String) (messageType : String)
    (m : AgentMetrics) (attempt : Nat) : AgentMetrics × Bool :=
  match handler attempt with
  | none => ({ m with tasks_completed := m.tasks_completed + 1 }, true)
  | some e =>
    ({ m with
        tasks_failed := m.tasks_failed + 1
        errors := m.errors ++ [messageType ++ ": " ++ e] }, false)

/-- The tenacity `@retry(stop=stop_after_attempt(3), ..., reraise=True)`
decorator: re-invoke the whole body until it succeeds or the allowed
attempts are used up, then re-raise.  `left + 1` is the number of attempts
still allowed, `attempt` the 1-based number of the current one.  Returns the
final metrics, the number of handler invocations made, and whether
processing finally succeeded.  The backoff waits change no state. -/
def retryCall (handler : Nat → Option String) (messageType : String) :
    Nat → Nat → AgentMetrics → AgentMetrics × Nat × Bool
  | 0, attempt, m => (m, attempt - 1, false)
  | left + 1, attempt, m =>
    match attemptOnce handler messageType m attempt with
    | (m2, true) => (m2, attempt, true)
    | (m2, false) =>
      if left = 0 then (m2, attempt, false)
      else retryCall handler messageType left (attempt + 1) m2

/-- `BaseAgent._process_message_with_retry`: the decorated body with three
allowed attempts, starting at attempt 1. -/
def processMessageWithRetry (handler : Nat → Option String)
    (messageType : String) (m : AgentMetrics) : AgentMetrics × Nat × Bool :=
  retryCall handler messageType 3 1 m

theorem retryCall_attempts_le (handler : Nat → Option String)
    (messageType : String) :
    ∀ (left attempt : Nat) (m : AgentMetrics),
      (retryCall handler messageType left attempt m).2.1 ≤
        attempt + left - 1 := by
  intro left
  induction left with
  | zero => intro attempt m; simp [retryCall]
  | succ k ih =>
    intro attempt m
    simp only [retryCall]
    cases hA : attemptOnce handler messageType m attempt with
    | mk m2 sb =>
      cases sb with
      | true => simp
      | false =>
        by_cases hk : k = 0
        · simp only [hk, if_true]
          simp
        · simp only [hk, if_false]
          have := ih (attempt + 1) m2
          omega

/-- The handler used in the C5 scenario: fails on the first two attempts and
succeeds on the third. -/
def c5Handler : Nat → Option String :=
  fun attempt => if attempt = 3 then none else some "boom"

/-- Zeroed metrics. -/
def freshMetrics : AgentMetrics :=
  { tasks_completed := 0, tasks_failed := 0, errors := [] }

/-- **C5 counterexample.**  A handler failing on the first two attempts and
succeeding on the third: the wrapper makes exactly 3 handler invocations and
increments `tasks_completed` by 1 — but `tasks_failed` ends at 2, not 0,
because each failed attempt increments it inside the retried body.  The
claim that `tasks_failed` is incremented by exactly 0 is therefore false. -/
theorem retry_metrics_counterexample :
    (processMessageWithRetry c5Handler "email_draft_request"
        freshMetrics).2.1 = 3 ∧
    (processMessageWithRetry c5Handler "email_draft_request"
        freshMetrics).1.tasks_completed = 1 ∧
    (processMessageWithRetry c5Handler "email_draft_request"
        freshMetrics).1.tasks_failed = 2 ∧
    ¬ (processMessageWithRetry c5Handler "email_draft_request"
        freshMetrics).1.tasks_failed = 0 := by
  decide

/-- **C5 (amended).**  For a handler that fails on the first two attempts and
succeeds on the third, the retry wrapper increments `tasks_completed` by
exactly 1 and `tasks_failed` by exactly 2 (one per failed attempt), the
handler is invoked exactly three times, processing ends successfully, and no
handler is ever invoked more than three times. -/
theorem retry_fail_fail_success (handler : Nat → Option String)
    (messageType : String) (m : AgentMetrics) (e1 e2 : String)
    (h1 : handler 1 = some e1) (h2 : handler 2 = some e2)
    (h3 : handler 3 = none) :
    (processMessageWithRetry handler messageType m).1.tasks_completed =
      m.tasks_completed + 1 ∧
    (processMessageWithRetry handler messageType m).1.tasks_failed =
      m.tasks_failed + 2 ∧
    (processMessageWithRetry handler messageType m).2.1 = 3 ∧
    (processMessageWithRetry handler messageType m).2.2 = true ∧
    (∀ (handler2 : Nat → Option String) (m2 : AgentMetrics),
      (processMessageWithRetry handler2 messageType m2).2.1 ≤ 3) := by
  refine ⟨?_, ?_, ?_, ?_, ?_⟩ <;>
    first
      | (intro handler2 m2
         have := retryCall_attempts_le handler2 messageType 3 1 m2
         unfold processMessageWithRetry
         omega)
      | simp [processMessageWithRetry, retryCall, attemptOnce, h1, h2, h3]

/-- Witness for the amended C5 at the concrete fails-twice handler. -/
theorem retry_fail_fail_success_witness :
    (processMessageWithRetry c5Handler "email_draft_request"
        freshMetrics).1.tasks_completed = freshMetrics.tasks_completed + 1 ∧
    (processMessageWithRetry c5Handler "email_draft_request"
        freshMetrics).1.tasks_failed = freshMetrics.tasks_failed + 2 ∧
    (processMessageWithRetry c5Handler "email_draft_request"
        freshMetrics).2.1 = 3 ∧
    (processMessageWithRetry c5Handler "email_draft_request"
        freshMetrics).2.2 = true ∧
    (∀ (handler2 : Nat → Option String) (m2 : AgentMetrics),
      (processMessageWithRetry handler2 "email_draft_request" m2).2.1 ≤ 3) :=
  retry_fail_fail_success c5Handler "email_draft_request" freshMetrics
    "boom" "boom" (by decide) (by decide) (by decide)

/-- The agent-local state manipulated by `BaseAgent.stop`: the status, the
`_running` flag, whether the run-loop task is alive, and whether the agent
is registered with the attached registry. -/
structure AgentLifecycleState where
  status : AgentStatus
  running : Bool
  loopAlive : Bool
  registered : Bool
  deriving DecidableEq

/-- `BaseAgent.stop`: early-return when `_running` is already false;
otherwise clear `_running`, set STOPPED, cancel and await the run loop, and
unregister from the registry. -/
def stopAgent (s : AgentLifecycleState) : AgentLifecycleState :=
  if s.running = false then s
  else
    { status := .stopped, running := false, loopAlive := false,
      registered := false }

/-- **C8.** Calling `stop()` twice, on a running or an already-stopped
agent, ends in the same state — STOPPED and not running — and the second
call changes nothing; moreover `stop()` on a non-running agent is always a
no-op (it raises nothing and returns early). -/
theorem agent_stop_idempotent (s : AgentLifecycleState)
    (h : s.running = true ∨ s.status = AgentStatus.stopped) :
    stopAgent (stopAgent s) = stopAgent s ∧
    (stopAgent s).status = AgentStatus.stopped ∧
    (stopAgent s).running = false ∧
    (s.running = false → stopAgent s = s) := by
  cases hr : s.running with
  | false =>
    rcases h with h1 | h1
    · rw [hr] at h1; cases h1
    · refine ⟨?_, ?_, ?_, fun _ => ?_⟩ <;> simp [stopAgent, hr, h1]
  | true =>
    refine ⟨?_, ?_, ?_, fun hc => ?_⟩
    · simp [stopAgent, hr]
    · simp [stopAgent, hr]
    · simp [stopAgent, hr]
    · exact absurd hc (by simp [hr])

/-- Witness for C8 on a concrete running agent. -/
theorem agent_stop_idempotent_witness :
    (stopAgent (stopAgent
        { status := .working, running := true,
          loopAlive := true, registered := true }) =
      stopAgent
        { status := .working, running := true,
          loopAlive := true, registered := true }) ∧
    (stopAgent
        { status := .working, running := true,
          loopAlive := true, registered := true }).status =
      AgentStatus.stopped ∧
    (stopAgent
        { status := .working, running := true,
          loopAlive := true, registered := true }).running = false ∧
    (({ status := .working, running := true, loopAlive := true,
        registered := true } : AgentLifecycleState).running = false →
      stopAgent
        { status := .working, running := true,
          loopAlive := true, registered := true } =
      { status := .working, running := true,
        loopAlive := true, registered := true }) :=
  agent_stop_idempotent
    { status := .working, running := true, loopAlive := true,
      registered := true }
    (Or.inl rfl)

/-! ### Registry system health (registry.py, `get_system_health`) -/

/-- One agent's outcome when `get_system_health` awaits its
`health_check()`: the returned report (whose `running` flag is all the
aggregation reads) or a raised exception, for which the registry records an
error entry carrying no `running` key at all. -/
inductive HealthOutcome where
  | report (running : Bool)
  | raised (error : String)
  deriving DecidableEq

/-- `h.get("running", False)` on the collected entry. -/
def HealthOutcome.runningFlag : HealthOutcome → Bool
  | .report r => r
  | .raised _ => false

/-- The aggregate dictionary built by `get_system_health` (the timestamp and
the per-agent list are carried by the caller and irrelevant here). -/
structure SystemHealth where
  total_agents : Nat
  healthy_agents : Nat
  unhealthy_agents : Nat
  system_status : String
  deriving DecidableEq

/-- `AgentRegistry.get_system_health` over the per-agent outcomes, in
registry order. -/
def getSystemHealth (outcomes : List HealthOutcome) : SystemHealth :=
  let healthy := outcomes.countP (fun h => h.runningFlag)
  let total := outcomes.length
  { total_agents := total
    healthy_agents := healthy
    unhealthy_agents := total - healthy
    system_status := if healthy = total then "healthy" else "degraded" }

/-- **C9.** `get_system_health` reports `healthy` iff every agent's health
check succeeded and reported `running=True`, and `degraded` otherwise; the
healthy and unhealthy counts always sum to the total agent count. -/
theorem registry_system_health (outcomes : List HealthOutcome) :
    ((getSystemHealth outcomes).system_status = "healthy" ↔
      ∀ o ∈ outcomes, o = HealthOutcome.report true) ∧
    ((getSystemHealth outcomes).system_status = "healthy" ∨
      (getSystemHealth outcomes).system_status = "degraded") ∧
    (getSystemHealth outcomes).healthy_agents +
        (getSystemHealth outcomes).unhealthy_agents =
      (getSystemHealth outcomes).total_agents := by
  have hle : outcomes.countP (fun h => h.runningFlag) ≤ outcomes.length :=
    List.countP_le_length _
  refine ⟨?_, ?_, ?_⟩
  · simp only [getSystemHealth]
    constructor
    · intro hh o ho
      by_cases hc : outcomes.countP (fun h => h.runningFlag) = outcomes.length
      · have hall := List.countP_eq_length.1 hc o ho
        cases o with
        | report r =>
          cases r with
          | false => simp [HealthOutcome.runningFlag] at hall
          | true => rfl
        | raised e => simp [HealthOutcome.runningFlag] at hall
      · rw [if_neg hc] at hh
        exact absurd hh (by decide)
    · intro hall
      have hc : outcomes.countP (fun h => h.runningFlag) = outcomes.length := by
        refine List.countP_eq_length.2 ?_
        intro o ho
        rw [hall o ho]
        rfl
      rw [if_pos hc]
  · simp only [getSystemHealth]
    by_cases hc : outcomes.countP (fun h => h.runningFlag) = outcomes.length <;>
      simp [hc]
  · simp only [getSystemHealth]
    omega

/-- Witness for C9 on a concrete registry with one crashed probe. -/
theorem registry_system_health_witness :
    ((getSystemHealth [HealthOutcome.report true,
        HealthOutcome.raised "probe failed"]).system_status = "healthy" ↔
      ∀ o ∈ [HealthOutcome.report true, HealthOutcome.raised "probe failed"],
        o = HealthOutcome.report true) ∧
    ((getSystemHealth [HealthOutcome.report true,
        HealthOutcome.raised "probe failed"]).system_status = "healthy" ∨
      (getSystemHealth [HealthOutcome.report true,
        HealthOutcome.raised "probe failed"]).system_status = "degraded") ∧
    (getSystemHealth [HealthOutcome.report true,
        HealthOutcome.raised "probe failed"]).healthy_agents +
        (getSystemHealth [HealthOutcome.report true,
          HealthOutcome.raised "probe failed"]).unhealthy_agents =
      (getSystemHealth [HealthOutcome.report true,
        HealthOutcome.raised "probe failed"]).total_agents :=
  registry_system_health
    [HealthOutcome.report true, HealthOutcome.raised "probe failed"]

/-! ### Task manager (agents/task_manager.py, with db/models.py TaskStatus)

The task manager owns one task's lifecycle: the Task/Subtask rows live in
the external store and change only through the handlers below, so the model
carries them in a per-task state record and replays the handled events. -/

/-- `TaskStatus(str, Enum)` from db/models.py, shared by tasks and
subtasks. -/
inductive TaskStatus where
  | pending
  | planning
  | in_progress
  | completed
  | failed
  | cancelled
  deriving DecidableEq

/-- A `Subtask` row, restricted to the fields the task manager reads.
`depends_on` / `input_data` / `output_data` may be NULL in the store; the
dispatch code normalizes NULL to the empty collection (`st.depends_on or
[]`, `st.input_data or \x7b\x7d`), so the model stores the normalized value. -/
structure Subtask where
  id : Nat
  title : String
  description : String
  assigned_agent : String
  status : TaskStatus
  sequence_order : Nat
  depends_on : List Nat
  input_data : List (String × String)
  output_data : List (String × String)
  deriving DecidableEq

/-- The per-task state the handlers manipulate: the Task row's status,
progress and summary, the `task_results` titles recorded so far, the Subtask
rows, and whether the task id is still in `_active_tasks`. -/
structure TMState where
  taskStatus : TaskStatus
  progress_pct : Nat
  result_summary : String
  results : List String
  subtasks : List Subtask
  active : Bool
  deriving DecidableEq

/-- One assignment envelope sent by `_dispatch_ready_subtasks` (message type
`task_assigned`, priority high, recipient the subtask's assigned agent
type, payload as below plus the task id). -/
structure DispatchRecord where
  subtask_id : Nat
  agent_type : String
  title : String
  description : String
  input_data : List (String × String)
  deriving DecidableEq

/-- The `completed_orders` set of `_dispatch_ready_subtasks`: the
`sequence_order` of every COMPLETED subtask. -/
def completedOrders (sts : List Subtask) : List Nat :=
  (sts.filter (fun st => decide (st.status = TaskStatus.completed))).map
    (fun st => st.sequence_order)

/-- `completed_output.get(dep_order, \x7b\x7d)`: the build loop assigns
`completed_output[st.sequence_order] = st.output_data or \x7b\x7d` for each
COMPLETED subtask in row order, so a later completed subtask with the same
order overwrites an earlier one — hence the last matching row. -/
def completedOutput (sts : List Subtask) (deporder : Nat) :
    List (String × String) :=
  match (sts.filter (fun st =>
      decide (st.status = TaskStatus.completed ∧
        st.sequence_order = deporder))).getLast? with
  | some st => st.output_data
  | none => []

/-- The dispatch loop's readiness test: PENDING, and every dependency order
contained in `completed_orders`. -/
def isReady (sts : List Subtask) (st : Subtask) : Bool :=
  decide (st.status = TaskStatus.pending) &&
    st.depends_on.all (fun d => decide (d ∈ completedOrders sts))

/-- The merged input for a dispatched subtask: start from its own
`input_data` and `dict.update` it with each completed dependency's output in
dependency-list order (`if dep_output:` skips empty outputs, which is also
what updating with an empty dict does). -/
def mergeInputs (sts : List Subtask) (st : Subtask) : List (String × String) :=
  st.depends_on.foldl
    (fun acc d =>
      let depOut := completedOutput sts d
      if depOut = [] then acc else dictUpdate acc depOut)
    st.input_data

/-- The assignment envelope payload for one dispatched subtask. -/
def mkDispatch (sts : List Subtask) (st : Subtask) : DispatchRecord :=
  { subtask_id := st.id
    agent_type := st.assigned_agent
    title := st.title
    description := st.description
    input_data := mergeInputs sts st }

/-- `TaskManagerAgent._dispatch_ready_subtasks` on a subtask snapshot: mark
every ready subtask IN_PROGRESS (`update_subtask`) and emit its assignment
envelope.  `completed_orders` is computed once before the loop; the loop's
own updates touch only PENDING rows, so they cannot change it. -/
def dispatchReadySubtasks (sts : List Subtask) :
    List Subtask × List DispatchRecord :=
  (sts.map (fun st =>
    if isReady sts st then { st with status := TaskStatus.in_progress } else st),
   (sts.filter (fun st => isReady sts st)).map (fun st => mkDispatch sts st))

/-- `update_subtask(subtask_id, status=COMPLETED, output_data=...)` — the
primary-key update at the head of `_handle_subtask_complete`. -/
def applyComplete (sts : List Subtask) (sid : Nat)
    (out : List (String × String)) : List Subtask :=
  sts.map (fun st =>
    if st.id = sid
    then { st with status := TaskStatus.completed, output_data := out }
    else st)

/-- `_complete_task`: compile the result summary (the optional LLM summary
is an external capability; the deterministic join fallback is modelled),
mark the Task COMPLETED at 100 percent and drop it from `_active_tasks`. -/
def completeTask (s : TMState) : TMState :=
  { s with
      taskStatus := TaskStatus.completed
      result_summary :=
        if s.results = [] then "Task abgeschlossen"
        else String.intercalate "; " s.results
      progress_pct := 100
      active := false }

/-- `_handle_subtask_complete`: record the completion, recompute progress
(`int((completed/total)*100)`, here in exact integer arithmetic), persist a
result row when output was provided, then either complete the task (when
every subtask is COMPLETED) or dispatch newly-ready subtasks. -/
def handleSubtaskComplete (s : TMState) (sid : Nat)
    (out : List (String × String)) : TMState × List DispatchRecord :=
  let sts := applyComplete s.subtasks sid out
  let total := sts.length
  let completedN :=
    sts.countP (fun st => decide (st.status = TaskStatus.completed))
  let progress := if 0 < total then completedN * 100 / total else 0
  let results2 :=
    if out = [] then s.results
    else s.results ++
      [(dictGet out "title").getD ("Subtask #" ++ toString sid ++ " Result")]
  if completedN = total then
    (completeTask
      { s with subtasks := sts, progress_pct := progress, results := results2 },
     [])
  else
    let d := dispatchReadySubtasks sts
    ({ s with subtasks := d.1, progress_pct := progress, results := results2 },
     d.2)

/-- `_handle_task_failure`: mark the Task FAILED with the error recorded and
drop it from `_active_tasks`. -/
def handleTaskFailure (s : TMState) (error : String) : TMState :=
  { s with
      taskStatus := TaskStatus.failed
      result_summary := "Fehler: " ++ error
      active := false }

/-- `_check_task_progress` — the consistency sweep `run()` performs for each
task still in `_active_tasks`. -/
def checkTaskProgress (s : TMState) : TMState :=
  let total := s.subtasks.length
  let completedN :=
    s.subtasks.countP (fun st => decide (st.status = TaskStatus.completed))
  let failedN :=
    s.subtasks.countP (fun st => decide (st.status = TaskStatus.failed))
  if 0 < failedN ∧ completedN + failedN = total then
    handleTaskFailure s (toString failedN ++ " subtask(s) failed")
  else s

/-- The events `process_message` / `run()` handle for one task. -/
inductive TMEvent where
  | completeNotice (sid : Nat) (out : List (String × String))
  | failureNotice (error : String)
  | sweep
  deriving DecidableEq

/-- One handled event, returning the new state and the assignment envelopes
dispatched while handling it. -/
def step (s : TMState) : TMEvent → TMState × List DispatchRecord
  | .completeNotice sid out => handleSubtaskComplete s sid out
  | .failureNotice e => (handleTaskFailure s e, [])
  | .sweep => if s.active then (checkTaskProgress s, []) else (s, [])

/-- A handled event sequence, collecting every dispatched assignment. -/
def runTrace (s : TMState) : List TMEvent → TMState × List DispatchRecord
  | [] => (s, [])
  | e :: tr =>
    let r := step s e
    let r2 := runTrace r.1 tr
    (r2.1, r.2 ++ r2.2)

/-! Dict lookup lemmas used to characterize the input merge. -/

/-- First-of-two option fallback (`x` if present, else `y`). -/
def orVal {V : Type} (x y : Option V) : Option V :=
  match x with
  | some v => some v
  | none => y

theorem getLast?_cons_eq {A : Type} (a : A) (l : List A) :
    (a :: l).getLast? =
      match l.getLast? with
      | some v => some v
      | none => some a := by
  induction l generalizing a with
  | nil => simp
  | cons b t ih =>
    rw [List.getLast?_cons_cons, ih b]
    cases h : t.getLast? <;> simp

theorem dictGet_dictSet_self {K V : Type} [DecidableEq K]
    (d : List (K × V)) (k : K) (v : V) :
    dictGet (dictSet d k v) k = some v := by
  induction d with
  | nil => simp [dictSet, dictGet]
  | cons kv rest ih =>
    obtain ⟨k1, v1⟩ := kv
    by_cases h : k1 = k
    · subst h; simp [dictSet, dictGet]
    · simp [dictSet, dictGet, h, ih]

theorem dictGet_dictSet_ne {K V : Type} [DecidableEq K]
    (d : List (K × V)) (k k1 : K) (v : V) (h : k ≠ k1) :
    dictGet (dictSet d k v) k1 = dictGet d k1 := by
  induction d with
  | nil => simp [dictSet, dictGet, h]
  | cons kv rest ih =>
    obtain ⟨k2, v2⟩ := kv
    by_cases h2 : k2 = k
    · subst h2; simp [dictSet, dictGet, h]
    · simp [dictSet, dictGet, h2, ih]

/-- `dictGet` after `dictUpdate`: the last value `other` holds for the key,
else the original binding. -/
theorem dictGet_dictUpdate_last {K V : Type} [DecidableEq K]
    (o : List (K × V)) (d : List (K × V)) (k : K) :
    dictGet (dictUpdate d o) k =
      orVal (o.filterMap
          (fun kv => if kv.1 = k then some kv.2 else none)).getLast?
        (dictGet d k) := by
  induction o generalizing d with
  | nil => simp [dictUpdate, orVal]
  | cons kv rest ih =>
    obtain ⟨k1, v1⟩ := kv
    have hstep : dictUpdate d ((k1, v1) :: rest) =
        dictUpdate (dictSet d k1 v1) rest := by
      simp [dictUpdate]
    rw [hstep, ih]
    by_cases hk : k1 = k
    · subst hk
      have hfm : List.filterMap
          (fun kv => if kv.1 = k1 then some kv.2 else none)
          ((k1, v1) :: rest) =
          v1 :: List.filterMap
            (fun kv => if kv.1 = k1 then some kv.2 else none) rest := by
        simp [List.filterMap_cons]
      rw [hfm, getLast?_cons_eq]
      cases h : (rest.filterMap
          (fun kv => if kv.1 = k1 then some kv.2 else none)).getLast? with
      | some v => simp [h, orVal]
      | none => simp [h, orVal, dictGet_dictSet_self]
    · have hfm : List.filterMap
          (fun kv => if kv.1 = k then some kv.2 else none)
          ((k1, v1) :: rest) =
          List.filterMap
            (fun kv => if kv.1 = k then some kv.2 else none) rest := by
        simp [List.filterMap_cons, hk]
      rw [hfm]
      cases h : (rest.filterMap
          (fun kv => if kv.1 = k then some kv.2 else none)).getLast? with
      | some v => simp [h, orVal]
      | none => simp [h, orVal, dictGet_dictSet_ne d k1 k v1 hk]

/-- With duplicate-free keys (as in every real Python dict) the last value a
dict holds for a key is its only one: the `dictGet` lookup. -/
theorem filterMap_key_getLast?_eq_dictGet {K V : Type} [DecidableEq K]
    (o : List (K × V)) (k : K) (hnd : (o.map Prod.fst).Nodup) :
    (o.filterMap
        (fun kv => if kv.1 = k then some kv.2 else none)).getLast? =
      dictGet o k := by
  induction o with
  | nil => simp [dictGet]
  | cons kv rest ih =>
    obtain ⟨k1, v1⟩ := kv
    simp only [List.map_cons, List.nodup_cons] at hnd
    obtain ⟨hk1, hrest⟩ := hnd
    by_cases hk : k1 = k
    · subst hk
      have hnone : rest.filterMap
          (fun kv => if kv.1 = k1 then some kv.2 else none) = [] := by
        rw [List.filterMap_eq_nil_iff]
        intro kv hkv
        have hne : kv.1 ≠ k1 := by
          intro he
          exact hk1 (he ▸ List.mem_map_of_mem Prod.fst hkv)
        simp [hne]
      have hfm : List.filterMap
          (fun kv => if kv.1 = k1 then some kv.2 else none)
          ((k1, v1) :: rest) = [v1] := by
        simp [List.filterMap_cons, hnone]
      rw [hfm]
      simp [dictGet]
    · have hfm : List.filterMap
          (fun kv => if kv.1 = k then some kv.2 else none)
          ((k1, v1) :: rest) =
          List.filterMap
            (fun kv => if kv.1 = k then some kv.2 else none) rest := by
        simp [List.filterMap_cons, hk]
      rw [hfm, ih hrest]
      simp [dictGet, hk]

theorem dictGet_dictUpdate_nodup {K V : Type} [DecidableEq K]
    (o : List (K × V)) (d : List (K × V)) (k : K)
    (hnd : (o.map Prod.fst).Nodup) :
    dictGet (dictUpdate d o) k =
      orVal (dictGet o k) (dictGet d k) := by
  rw [dictGet_dictUpdate_last, filterMap_key_getLast?_eq_dictGet o k hnd]

/-- Lookup through a left fold of dict updates: the value provided by the
last updater that binds the key, else the initial binding. -/
theorem dictGet_foldl_update {A K V : Type} [DecidableEq K]
    (ds : List A) (f : A → List (K × V)) (init : List (K × V)) (k : K)
    (hwf : ∀ d ∈ ds, ((f d).map Prod.fst).Nodup) :
    dictGet (ds.foldl (fun acc d => dictUpdate acc (f d)) init) k =
      orVal (ds.filterMap (fun d => dictGet (f d) k)).getLast?
        (dictGet init k) := by
  induction ds generalizing init with
  | nil => simp [orVal]
  | cons d rest ih =>
    simp only [List.foldl_cons]
    rw [ih (dictUpdate init (f d))
      (fun x hx => hwf x (List.mem_cons_of_mem d hx))]
    have hhead := dictGet_dictUpdate_nodup (f d) init k
      (hwf d (List.mem_cons_self d rest))
    simp only [List.filterMap_cons]
    cases hd : dictGet (f d) k with
    | none =>
      cases h2 : (rest.filterMap (fun x => dictGet (f x) k)).getLast? with
      | some v => simp [h2, orVal]
      | none =>
        rw [hd] at hhead
        simp [h2, hhead, orVal]
    | some v =>
      rw [getLast?_cons_eq]
      cases h2 : (rest.filterMap (fun x => dictGet (f x) k)).getLast? with
      | some v2 => simp [h2, orVal]
      | none =>
        rw [hd] at hhead
        simp [h2, hhead, orVal]

/-- The `if dep_output:` guard is inert: updating with an empty dict is the
identity, so the merge is the plain fold of updates. -/
theorem mergeInputs_eq_fold (sts : List Subtask) (st : Subtask) :
    mergeInputs sts st =
      st.depends_on.foldl
        (fun acc d => dictUpdate acc (completedOutput sts d))
        st.input_data := by
  unfold mergeInputs
  generalize st.input_data = init
  induction st.depends_on generalizing init with
  | nil => rfl
  | cons d rest ih =>
    simp only [List.foldl_cons]
    by_cases h : completedOutput sts d = []
    · have he : dictUpdate init (completedOutput sts d) = init := by
        rw [h]; rfl
      simp only [h, if_pos rfl, he]
      exact ih init
    · simp only [h, if_neg h, if_false]
      exact ih (dictUpdate init (completedOutput sts d))

/-! Step-level facts about dispatch.  `NoPendingWithId sts i` says no row
with id `i` is PENDING — once true it stays true, which is what makes
dispatch at-most-once. -/

def NoPendingWithId (sts : List Subtask) (i : Nat) : Prop :=
  ∀ st ∈ sts, st.id = i → st.status ≠ TaskStatus.pending

theorem map_id_of_id_preserving (f : Subtask → Subtask)
    (hf : ∀ st, (f st).id = st.id) (sts : List Subtask) :
    (sts.map f).map Subtask.id = sts.map Subtask.id := by
  induction sts with
  | nil => rfl
  | cons a t ih => simp [hf, ih]

theorem applyComplete_id_preserving (sid : Nat)
    (out : List (String × String)) (st : Subtask) :
    ((fun st => if st.id = sid
      then { st with status := TaskStatus.completed, output_data := out }
      else st) st).id = st.id := by
  by_cases h : st.id = sid <;> simp [h]

theorem applyComplete_ids (sts : List Subtask) (sid : Nat)
    (out : List (String × String)) :
    (applyComplete sts sid out).map Subtask.id = sts.map Subtask.id :=
  map_id_of_id_preserving _ (applyComplete_id_preserving sid out) sts

theorem dispatchReady_fst_ids (sts : List Subtask) :
    ((dispatchReadySubtasks sts).1).map Subtask.id = sts.map Subtask.id := by
  refine map_id_of_id_preserving _ ?_ sts
  intro st
  by_cases h : isReady sts st <;> simp [h]

theorem checkTaskProgress_subtasks (s : TMState) :
    (checkTaskProgress s).subtasks = s.subtasks := by
  simp only [checkTaskProgress, handleTaskFailure]
  split <;> rfl

theorem handleSubtaskComplete_subtasks (s : TMState) (sid : Nat)
    (out : List (String × String)) :
    (handleSubtaskComplete s sid out).1.subtasks =
        applyComplete s.subtasks sid out ∨
      (handleSubtaskComplete s sid out).1.subtasks =
        (dispatchReadySubtasks (applyComplete s.subtasks sid out)).1 := by
  by_cases hc : List.countP (fun st => decide (st.status = TaskStatus.completed))
      (applyComplete s.subtasks sid out) =
      (applyComplete s.subtasks sid out).length
  · left
    simp only [handleSubtaskComplete]
    rw [if_pos hc]
    simp [completeTask]
  · right
    simp only [handleSubtaskComplete]
    rw [if_neg hc]

theorem step_dispatches (s : TMState) (e : TMEvent) :
    (step s e).2 = [] ∨
    ∃ sid out, e = TMEvent.completeNotice sid out ∧
      (step s e).2 =
        (dispatchReadySubtasks (applyComplete s.subtasks sid out)).2 ∧
      (step s e).1.subtasks =
        (dispatchReadySubtasks (applyComplete s.subtasks sid out)).1 := by
  cases e with
  | completeNotice sid out =>
    by_cases hc : List.countP
        (fun st => decide (st.status = TaskStatus.completed))
        (applyComplete s.subtasks sid out) =
        (applyComplete s.subtasks sid out).length
    · left
      show (handleSubtaskComplete s sid out).2 = []
      simp only [handleSubtaskComplete]
      rw [if_pos hc]
    · right
      refine ⟨sid, out, rfl, ?_, ?_⟩
      · show (handleSubtaskComplete s sid out).2 = _
        simp only [handleSubtaskComplete]
        rw [if_neg hc]
      · show (handleSubtaskComplete s sid out).1.subtasks = _
        simp only [handleSubtaskComplete]
        rw [if_neg hc]
  | failureNotice err => left; rfl
  | sweep =>
    left
    show (if s.active then (checkTaskProgress s, []) else (s, [])).2 = []
    split <;> rfl

theorem step_ids (s : TMState) (e : TMEvent) :
    (step s e).1.subtasks.map Subtask.id = s.subtasks.map Subtask.id := by
  cases e with
  | completeNotice sid out =>
    rcases handleSubtaskComplete_subtasks s sid out with h | h
    · show (handleSubtaskComplete s sid out).1.subtasks.map Subtask.id = _
      rw [h, applyComplete_ids]
    · show (handleSubtaskComplete s sid out).1.subtasks.map Subtask.id = _
      rw [h, dispatchReady_fst_ids, applyComplete_ids]
  | failureNotice err => rfl
  | sweep =>
    show ((if s.active then (checkTaskProgress s, ([] : List DispatchRecord))
        else (s, [])).1.subtasks.map Subtask.id) = _
    split
    · rw [checkTaskProgress_subtasks]
    · rfl

theorem dispatchReady_mem_spec (sts : List Subtask) (disp : DispatchRecord)
    (h : disp ∈ (dispatchReadySubtasks sts).2) :
    ∃ st, st ∈ sts ∧ isReady sts st = true ∧ disp = mkDispatch sts st := by
  unfold dispatchReadySubtasks at h
  simp only at h
  obtain ⟨st, hst, heq⟩ := List.mem_map.1 h
  have hf := List.mem_filter.1 hst
  exact ⟨st, hf.1, hf.2, heq.symm⟩

theorem isReady_spec (sts : List Subtask) (st : Subtask)
    (h : isReady sts st = true) :
    st.status = TaskStatus.pending ∧
    ∀ d ∈ st.depends_on, ∃ st2, st2 ∈ sts ∧ st2.sequence_order = d ∧
      st2.status = TaskStatus.completed := by
  unfold isReady at h
  rw [Bool.and_eq_true] at h
  obtain ⟨h1, h2⟩ := h
  refine ⟨of_decide_eq_true h1, ?_⟩
  intro d hd
  have hmem : d ∈ completedOrders sts :=
    of_decide_eq_true (List.all_eq_true.1 h2 d hd)
  unfold completedOrders at hmem
  obtain ⟨st2, hst2, horder⟩ := List.mem_map.1 hmem
  have hf := List.mem_filter.1 hst2
  exact ⟨st2, hf.1, horder, of_decide_eq_true hf.2⟩

theorem map_preserves_noPending (f : Subtask → Subtask)
    (hid : ∀ st, (f st).id = st.id)
    (hstat : ∀ st, (f st).status = TaskStatus.pending →
      st.status = TaskStatus.pending)
    (sts : List Subtask) (i : Nat) (h : NoPendingWithId sts i) :
    NoPendingWithId (sts.map f) i := by
  intro st hst hideq hpend
  obtain ⟨st0, hst0, rfl⟩ := List.mem_map.1 hst
  have hid0 : st0.id = i := by rw [← hid st0]; exact hideq
  exact h st0 hst0 hid0 (hstat st0 hpend)

theorem applyComplete_status_preserving (sid : Nat)
    (out : List (String × String)) (st : Subtask)
    (h : ((fun st => if st.id = sid
      then { st with status := TaskStatus.completed, output_data := out }
      else st) st).status = TaskStatus.pending) :
    st.status = TaskStatus.pending := by
  by_cases hc : st.id = sid
  · simp [hc] at h
  · simpa [hc] using h

theorem dispatchMap_status_preserving (sts : List Subtask) (st : Subtask)
    (h : ((fun st => if isReady sts st
      then { st with status := TaskStatus.in_progress } else st) st).status =
      TaskStatus.pending) :
    st.status = TaskStatus.pending := by
  by_cases hc : isReady sts st
  · simp [hc] at h
  · simpa [hc] using h

theorem step_noPending (s : TMState) (e : TMEvent) (i : Nat)
    (h : NoPendingWithId s.subtasks i) :
    NoPendingWithId (step s e).1.subtasks i := by
  cases e with
  | completeNotice sid out =>
    have hmid : NoPendingWithId (applyComplete s.subtasks sid out) i :=
      map_preserves_noPending _ (applyComplete_id_preserving sid out)
        (applyComplete_status_preserving sid out) s.subtasks i h
    rcases handleSubtaskComplete_subtasks s sid out with heq | heq
    · show NoPendingWithId (handleSubtaskComplete s sid out).1.subtasks i
      rw [heq]; exact hmid
    · show NoPendingWithId (handleSubtaskComplete s sid out).1.subtasks i
      rw [heq]
      exact map_preserves_noPending _
        (fun st => by by_cases hc : isReady (applyComplete s.subtasks sid out) st <;> simp [hc])
        (dispatchMap_status_preserving _)
        (applyComplete s.subtasks sid out) i hmid
  | failureNotice err => exact h
  | sweep =>
    show NoPendingWithId ((if s.active then (checkTaskProgress s, ([] : List DispatchRecord)) else (s, [])).1.subtasks) i
    split
    · rw [checkTaskProgress_subtasks]; exact h
    · exact h

theorem step_dispatch_pending (s : TMState) (e : TMEvent) (i : Nat)
    (h : ∃ d ∈ (step s e).2, d.subtask_id = i) :
    ∃ st ∈ s.subtasks, st.id = i ∧ st.status = TaskStatus.pending := by
  rcases step_dispatches s e with hnil | ⟨sid, out, he, hd2, hs1⟩
  · rw [hnil] at h; simp at h
  · obtain ⟨d, hd, hdi⟩ := h
    rw [hd2] at hd
    obtain ⟨st, hst, hready, rfl⟩ := dispatchReady_mem_spec _ _ hd
    have hsti : st.id = i := hdi
    have hpend : st.status = TaskStatus.pending := (isReady_spec _ _ hready).1
    obtain ⟨st0, hst0, hfeq⟩ := List.mem_map.1 hst
    by_cases hc : st0.id = sid
    · exfalso
      rw [← hfeq] at hpend
      simp [hc] at hpend
    · have hid0 : st0 = st := by rw [← hfeq]; simp [hc]
      exact ⟨st0, hst0, by rw [hid0]; exact hsti, by rw [hid0]; exact hpend⟩

theorem step_dispatched_noPending (s : TMState) (e : TMEvent) (i : Nat)
    (hnd : (s.subtasks.map Subtask.id).Nodup)
    (h : ∃ d ∈ (step s e).2, d.subtask_id = i) :
    NoPendingWithId (step s e).1.subtasks i := by
  rcases step_dispatches s e with hnil | ⟨sid, out, he, hd2, hs1⟩
  · rw [hnil] at h; simp at h
  · obtain ⟨d, hd, hdi⟩ := h
    rw [hd2] at hd
    obtain ⟨st1, hst1, hready1, rfl⟩ := dispatchReady_mem_spec _ _ hd
    have hst1i : st1.id = i := hdi
    rw [hs1]
    intro st2 hst2 hid2 hpend2
    unfold dispatchReadySubtasks at hst2
    simp only at hst2
    obtain ⟨st0, hst0, hfeq⟩ := List.mem_map.1 hst2
    have hnd2 : ((applyComplete s.subtasks sid out).map Subtask.id).Nodup := by
      rw [applyComplete_ids]; exact hnd
    have hid0 : st0.id = i := by
      rw [← hfeq] at hid2
      by_cases hc : isReady (applyComplete s.subtasks sid out) st0 <;>
        simpa [hc] using hid2
    have heq01 : st0 = st1 :=
      List.inj_on_of_nodup_map hnd2 hst0 hst1 (by rw [hid0, hst1i])
    rw [← hfeq, heq01] at hpend2
    simp [hready1] at hpend2

theorem countP_filter_le {A : Type} (l : List A) (p q : A → Bool) :
    (l.filter q).countP p ≤ l.countP p := by
  induction l with
  | nil => simp
  | cons a t ih =>
    rw [List.filter_cons]
    by_cases hq : q a
    · simp only [hq, if_true]
      rw [List.countP_cons, List.countP_cons]
      omega
    · simp only [hq, Bool.false_eq_true, if_false]
      rw [List.countP_cons]
      omega

theorem nodup_ids_countP_le_one (l : List Subtask) (i : Nat)
    (hnd : (l.map Subtask.id).Nodup) :
    l.countP (fun st => decide (st.id = i)) ≤ 1 := by
  induction l with
  | nil => simp
  | cons a t ih =>
    simp only [List.map_cons, List.nodup_cons] at hnd
    obtain ⟨ha, ht⟩ := hnd
    rw [List.countP_cons]
    by_cases hai : a.id = i
    · have hzero : t.countP (fun st => decide (st.id = i)) = 0 := by
        rw [List.countP_eq_zero]
        intro st hst hdec
        have hsti : st.id = i := of_decide_eq_true hdec
        refine ha ?_
        rw [hai, ← hsti]
        exact List.mem_map_of_mem Subtask.id hst
      simp [hai, hzero]
    · have := ih ht
      simp [hai]
      omega

theorem step_count_le_one (s : TMState) (e : TMEvent) (i : Nat)
    (hnd : (s.subtasks.map Subtask.id).Nodup) :
    (step s e).2.countP (fun d => decide (d.subtask_id = i)) ≤ 1 := by
  rcases step_dispatches s e with hnil | ⟨sid, out, he, hd2, hs1⟩
  · rw [hnil]; simp
  · rw [hd2]
    unfold dispatchReadySubtasks
    simp only
    rw [List.countP_map]
    have hnd2 : ((applyComplete s.subtasks sid out).map Subtask.id).Nodup := by
      rw [applyComplete_ids]; exact hnd
    calc ((applyComplete s.subtasks sid out).filter
            (fun st => isReady (applyComplete s.subtasks sid out) st)).countP
            ((fun d => decide (d.subtask_id = i)) ∘
              mkDispatch (applyComplete s.subtasks sid out))
        ≤ (applyComplete s.subtasks sid out).countP
            ((fun d => decide (d.subtask_id = i)) ∘
              mkDispatch (applyComplete s.subtasks sid out)) :=
          countP_filter_le _ _ _
      _ ≤ 1 := nodup_ids_countP_le_one _ i hnd2

theorem trace_no_dispatch_of_noPending :
    ∀ (tr : List TMEvent) (s : TMState) (i : Nat),
      NoPendingWithId s.subtasks i →
      (runTrace s tr).2.countP (fun d => decide (d.subtask_id = i)) = 0 := by
  intro tr
  induction tr with
  | nil => intro s i h; simp [runTrace]
  | cons e rest ih =>
    intro s i h
    simp only [runTrace]
    rw [List.countP_append]
    have h1 : (step s e).2.countP (fun d => decide (d.subtask_id = i)) = 0 := by
      rw [List.countP_eq_zero]
      intro d hd hdec
      obtain ⟨st, hst, hsti, hpend⟩ :=
        step_dispatch_pending s e i ⟨d, hd, of_decide_eq_true hdec⟩
      exact h st hst hsti hpend
    rw [h1, ih (step s e).1 i (step_noPending s e i h)]

theorem dispatch_at_most_once :
    ∀ (tr : List TMEvent) (s : TMState) (i : Nat),
      (s.subtasks.map Subtask.id).Nodup →
      (runTrace s tr).2.countP (fun d => decide (d.subtask_id = i)) ≤ 1 := by
  intro tr
  induction tr with
  | nil => intro s i _; simp [runTrace]
  | cons e rest ih =>
    intro s i hnd
    simp only [runTrace]
    rw [List.countP_append]
    have hnd2 : ((step s e).1.subtasks.map Subtask.id).Nodup := by
      rw [step_ids]; exact hnd
    by_cases hz : (step s e).2.countP (fun d => decide (d.subtask_id = i)) = 0
    · have := ih (step s e).1 i hnd2
      omega
    · have hpos : 0 < (step s e).2.countP (fun d => decide (d.subtask_id = i)) :=
        Nat.pos_of_ne_zero hz
      obtain ⟨d, hd, hdec⟩ := List.countP_pos_iff.1 hpos
      have hno := step_dispatched_noPending s e i hnd
        ⟨d, hd, of_decide_eq_true hdec⟩
      rw [trace_no_dispatch_of_noPending rest (step s e).1 i hno]
      have := step_count_le_one s e i hnd
      omega

/-- **C3.** (1) Every dispatched assignment belongs to a PENDING subtask all
of whose dependency indices denote COMPLETED subtasks; the envelope carries
the subtask's agent type, title, description and the merged input, and the
subtask is marked IN_PROGRESS.  (2) The merged input maps each key to the
value provided by the last dependency (in dependency-list order) whose
output binds it, else to the subtask's own input value (outputs are real
Python dicts: duplicate-free keys).  (3) Across any handled event sequence,
each subtask id is dispatched at most once. -/
theorem taskManager_subtask_dispatch :
    (∀ (sts : List Subtask) (disp : DispatchRecord),
      disp ∈ (dispatchReadySubtasks sts).2 →
      ∃ st, st ∈ sts ∧ disp.subtask_id = st.id ∧
        st.status = TaskStatus.pending ∧
        (∀ d ∈ st.depends_on, ∃ st2, st2 ∈ sts ∧
          st2.sequence_order = d ∧ st2.status = TaskStatus.completed) ∧
        disp.agent_type = st.assigned_agent ∧ disp.title = st.title ∧
        disp.description = st.description ∧
        disp.input_data = mergeInputs sts st ∧
        { st with status := TaskStatus.in_progress } ∈
          (dispatchReadySubtasks sts).1) ∧
    (∀ (sts : List Subtask) (st : Subtask) (k : String),
      (∀ d ∈ st.depends_on, ((completedOutput sts d).map Prod.fst).Nodup) →
      dictGet (mergeInputs sts st) k =
        orVal (st.depends_on.filterMap
            (fun d => dictGet (completedOutput sts d) k)).getLast?
          (dictGet st.input_data k)) ∧
    (∀ (s0 : TMState) (tr : List TMEvent) (i : Nat),
      (s0.subtasks.map Subtask.id).Nodup →
      (runTrace s0 tr).2.countP (fun d => decide (d.subtask_id = i)) ≤ 1) := by
  refine ⟨?_, ?_, ?_⟩
  · intro sts disp hd
    obtain ⟨st, hst, hready, rfl⟩ := dispatchReady_mem_spec sts disp hd
    obtain ⟨hpend, hdeps⟩ := isReady_spec sts st hready
    refine ⟨st, hst, rfl, hpend, hdeps, rfl, rfl, rfl, rfl, ?_⟩
    unfold dispatchReadySubtasks
    simp only
    refine List.mem_map.2 ⟨st, hst, ?_⟩
    simp [hready]
  · intro sts st k hwf
    rw [mergeInputs_eq_fold]
    have h2 := dictGet_foldl_update st.depends_on
      (fun d => completedOutput sts d) st.input_data k hwf
    simpa using h2
  · intro s0 tr i hnd
    exact dispatch_at_most_once tr s0 i hnd

/-- Concrete subtasks for the C3 witness: a completed prospect search at
index 0, and a pending research step depending on it. -/
def c3ExSub1 : Subtask :=
  { id := 1, title := "Unternehmen suchen", description := "Suche"
    assigned_agent := "prospect_finder", status := TaskStatus.completed
    sequence_order := 0, depends_on := []
    input_data := [("region", "CH")]
    output_data := [("companies", "a;b"), ("count", "2")] }

def c3ExSub2 : Subtask :=
  { id := 2, title := "Unternehmen recherchieren", description := "Detail"
    assigned_agent := "research_manager", status := TaskStatus.pending
    sequence_order := 1, depends_on := [0]
    input_data := [("depth", "full"), ("count", "0")]
    output_data := [] }

def c3ExSubtasks : List Subtask := [c3ExSub1, c3ExSub2]

def c3ExDisp : DispatchRecord := mkDispatch c3ExSubtasks c3ExSub2

def c3ExState : TMState :=
  { taskStatus := TaskStatus.in_progress, progress_pct := 0
    result_summary := "", results := [], subtasks := c3ExSubtasks
    active := true }

/-- Witness for C3 at the concrete two-subtask task. -/
theorem taskManager_subtask_dispatch_witness :
    (∃ st, st ∈ c3ExSubtasks ∧ c3ExDisp.subtask_id = st.id ∧
      st.status = TaskStatus.pending ∧
      (∀ d ∈ st.depends_on, ∃ st2, st2 ∈ c3ExSubtasks ∧
        st2.sequence_order = d ∧ st2.status = TaskStatus.completed) ∧
      c3ExDisp.agent_type = st.assigned_agent ∧ c3ExDisp.title = st.title ∧
      c3ExDisp.description = st.description ∧
      c3ExDisp.input_data = mergeInputs c3ExSubtasks st ∧
      { st with status := TaskStatus.in_progress } ∈
        (dispatchReadySubtasks c3ExSubtasks).1) ∧
    (dictGet (mergeInputs c3ExSubtasks c3ExSub2) "count" =
      orVal (c3ExSub2.depends_on.filterMap
          (fun d => dictGet (completedOutput c3ExSubtasks d) "count")).getLast?
        (dictGet c3ExSub2.input_data "count")) ∧
    ((runTrace c3ExState [TMEvent.completeNotice 2 [("x", "y")]]).2.countP
      (fun d => decide (d.subtask_id = 2)) ≤ 1) :=
  ⟨taskManager_subtask_dispatch.1 c3ExSubtasks c3ExDisp (by decide),
   taskManager_subtask_dispatch.2.1 c3ExSubtasks c3ExSub2 "count" (by decide),
   taskManager_subtask_dispatch.2.2 c3ExState
     [TMEvent.completeNotice 2 [("x", "y")]] 2 (by decide)⟩

/-! C4 helpers: preservation of the completion invariant, sweep behaviour. -/

/-- The Task is COMPLETED only with every subtask COMPLETED. -/
def CompletedInv (s : TMState) : Prop :=
  s.taskStatus = TaskStatus.completed →
    ∀ st ∈ s.subtasks, st.status = TaskStatus.completed

theorem checkTaskProgress_cases (s : TMState) :
    checkTaskProgress s = s ∨
      (checkTaskProgress s).taskStatus = TaskStatus.failed := by
  simp only [checkTaskProgress]
  split
  · right; simp [handleTaskFailure]
  · left; rfl

theorem step_completedInv (s : TMState) (e : TMEvent)
    (h : CompletedInv s) : CompletedInv (step s e).1 := by
  cases e with
  | completeNotice sid out =>
    show CompletedInv (handleSubtaskComplete s sid out).1
    by_cases hc : List.countP
        (fun st => decide (st.status = TaskStatus.completed))
        (applyComplete s.subtasks sid out) =
        (applyComplete s.subtasks sid out).length
    · intro _ st hst
      have hsub : (handleSubtaskComplete s sid out).1.subtasks =
          applyComplete s.subtasks sid out := by
        simp only [handleSubtaskComplete]
        rw [if_pos hc]
        simp [completeTask]
      rw [hsub] at hst
      exact of_decide_eq_true (List.countP_eq_length.1 hc st hst)
    · have hstat : (handleSubtaskComplete s sid out).1.taskStatus =
          s.taskStatus := by
        simp only [handleSubtaskComplete]
        rw [if_neg hc]
      intro hcomp st hst
      rw [hstat] at hcomp
      exfalso
      refine hc (List.countP_eq_length.2 ?_)
      intro st2 hst2
      unfold applyComplete at hst2
      obtain ⟨st0, hst0, rfl⟩ := List.mem_map.1 hst2
      have h0 := h hcomp st0 hst0
      by_cases hid : st0.id = sid <;> simp [hid, h0]
  | failureNotice err =>
    intro hcomp
    simp [step, handleTaskFailure] at hcomp
  | sweep =>
    show CompletedInv
      (if s.active then (checkTaskProgress s, ([] : List DispatchRecord))
       else (s, [])).1
    split
    · rcases checkTaskProgress_cases s with hcp | hcp
      · simpa [hcp] using h
      · intro hcomp
        rw [hcp] at hcomp
        simp at hcomp
    · exact h

theorem trace_completedInv :
    ∀ (tr : List TMEvent) (s : TMState), CompletedInv s →
      CompletedInv (runTrace s tr).1 := by
  intro tr
  induction tr with
  | nil => intro s h; exact h
  | cons e rest ih =>
    intro s h
    simp only [runTrace]
    exact ih (step s e).1 (step_completedInv s e h)

theorem handleSubtaskComplete_completes (s : TMState) (sid : Nat)
    (out : List (String × String))
    (hall : ∀ st ∈ applyComplete s.subtasks sid out,
      st.status = TaskStatus.completed) :
    (handleSubtaskComplete s sid out).1.taskStatus = TaskStatus.completed := by
  have hc : List.countP
      (fun st => decide (st.status = TaskStatus.completed))
      (applyComplete s.subtasks sid out) =
      (applyComplete s.subtasks sid out).length :=
    List.countP_eq_length.2
      (fun st hst => decide_eq_true (hall st hst))
  simp only [handleSubtaskComplete]
  rw [if_pos hc]
  simp [completeTask]

theorem no_dispatch_after_inactive :
    ∀ (tr : List TMEvent) (s : TMState), s.active = false →
      (∀ ev ∈ tr, ev = TMEvent.sweep) → (runTrace s tr).2 = [] := by
  intro tr
  induction tr with
  | nil => intro s _ _; rfl
  | cons e rest ih =>
    intro s hact hall
    have he : e = TMEvent.sweep := hall e (List.mem_cons_self e rest)
    subst he
    have hstep : step s TMEvent.sweep = (s, []) := by
      show (if s.active then (checkTaskProgress s, ([] : List DispatchRecord))
        else (s, [])) = (s, [])
      rw [hact]
      simp
    simp only [runTrace, hstep]
    exact ih s hact (fun ev hev => hall ev (List.mem_cons_of_mem _ hev))

theorem failed_dependency_blocks (sts : List Subtask) (st : Subtask) (d : Nat)
    (hnd : (sts.map Subtask.id).Nodup) (hst : st ∈ sts)
    (hd : d ∈ st.depends_on)
    (hfail : ∀ st2 ∈ sts, st2.sequence_order = d →
      st2.status = TaskStatus.failed) :
    ∀ disp ∈ (dispatchReadySubtasks sts).2, disp.subtask_id ≠ st.id := by
  intro disp hdisp heq
  obtain ⟨st1, hst1, hready, rfl⟩ := dispatchReady_mem_spec sts disp hdisp
  have h1 : st1 = st := List.inj_on_of_nodup_map hnd hst1 hst heq
  subst h1
  obtain ⟨_, hdeps⟩ := isReady_spec sts st1 hready
  obtain ⟨st2, hst2, horder, hcomp⟩ := hdeps d hd
  have hf := hfail st2 hst2 horder
  rw [hf] at hcomp
  simp at hcomp

theorem sweep_force_fails (s : TMState)
    (hact : s.active = true)
    (hfail : 0 < s.subtasks.countP
      (fun st => decide (st.status = TaskStatus.failed)))
    (hterm : s.subtasks.countP
        (fun st => decide (st.status = TaskStatus.completed)) +
      s.subtasks.countP (fun st => decide (st.status = TaskStatus.failed)) =
      s.subtasks.length) :
    (step s TMEvent.sweep).1.taskStatus = TaskStatus.failed := by
  show (if s.active then (checkTaskProgress s, ([] : List DispatchRecord))
      else (s, [])).1.taskStatus = _
  rw [hact]
  simp only [if_true]
  simp only [checkTaskProgress]
  rw [if_pos ⟨hfail, hterm⟩]
  simp [handleTaskFailure]

/-- **C4 (amended).**  (1) If a state satisfies "COMPLETED implies all
subtasks COMPLETED", every state reachable by handled events does too — the
Task is marked COMPLETED only when every subtask is COMPLETED.  (2) Handling
the completion notice that completes the last subtask marks the Task
COMPLETED.  (3) Handling a failure notice marks the Task FAILED immediately,
records the error, and deactivates the task, (4) after which the periodic
monitor alone never dispatches anything.  (5) A subtask one of whose
dependency indices denotes only FAILED subtasks is never dispatched.  (6)
The consistency sweep force-fails an active task when at least one subtask
FAILED and every subtask is terminal. -/
theorem taskManager_completion_failure :
    (∀ (s0 : TMState) (tr : List TMEvent),
      (s0.taskStatus = TaskStatus.completed →
        ∀ st ∈ s0.subtasks, st.status = TaskStatus.completed) →
      (runTrace s0 tr).1.taskStatus = TaskStatus.completed →
      ∀ st ∈ (runTrace s0 tr).1.subtasks,
        st.status = TaskStatus.completed) ∧
    (∀ (s : TMState) (sid : Nat) (out : List (String × String)),
      (∀ st ∈ applyComplete s.subtasks sid out,
        st.status = TaskStatus.completed) →
      (handleSubtaskComplete s sid out).1.taskStatus =
        TaskStatus.completed) ∧
    (∀ (s : TMState) (err : String),
      (handleTaskFailure s err).taskStatus = TaskStatus.failed ∧
      (handleTaskFailure s err).active = false ∧
      (handleTaskFailure s err).result_summary = "Fehler: " ++ err) ∧
    (∀ (tr : List TMEvent) (s : TMState), s.active = false →
      (∀ ev ∈ tr, ev = TMEvent.sweep) → (runTrace s tr).2 = []) ∧
    (∀ (sts : List Subtask) (st : Subtask) (d : Nat),
      (sts.map Subtask.id).Nodup → st ∈ sts → d ∈ st.depends_on →
      (∀ st2 ∈ sts, st2.sequence_order = d →
        st2.status = TaskStatus.failed) →
      ∀ disp ∈ (dispatchReadySubtasks sts).2, disp.subtask_id ≠ st.id) ∧
    (∀ (s : TMState), s.active = true →
      0 < s.subtasks.countP
        (fun st => decide (st.status = TaskStatus.failed)) →
      s.subtasks.countP
          (fun st => decide (st.status = TaskStatus.completed)) +
        s.subtasks.countP
          (fun st => decide (st.status = TaskStatus.failed)) =
        s.subtasks.length →
      (step s TMEvent.sweep).1.taskStatus = TaskStatus.failed) := by
  refine ⟨?_, ?_, ?_, ?_, ?_, ?_⟩
  · intro s0 tr hinv
    exact trace_completedInv tr s0 hinv
  · exact handleSubtaskComplete_completes
  · intro s err
    refine ⟨rfl, rfl, rfl⟩
  · exact no_dispatch_after_inactive
  · exact failed_dependency_blocks
  · exact sweep_force_fails

/-- **C4 counterexample.**  A task with two IN_PROGRESS subtasks and a third
PENDING one depending on the second.  A failure notice is handled first: the
Task becomes FAILED.  A completion notice for the second subtask is handled
afterwards — and it still dispatches the third subtask.  This refutes the
claim that once a failure notice for the task is handled no further
subtasks of that task are ever dispatched. -/
def c4ExState : TMState :=
  { taskStatus := TaskStatus.in_progress, progress_pct := 0
    result_summary := "", results := []
    subtasks :=
      [{ id := 1, title := "A", description := ""
         assigned_agent := "prospect_finder"
         status := TaskStatus.in_progress, sequence_order := 0
         depends_on := [], input_data := [], output_data := [] },
       { id := 2, title := "B", description := ""
         assigned_agent := "research_manager"
         status := TaskStatus.in_progress, sequence_order := 1
         depends_on := [], input_data := [], output_data := [] },
       { id := 3, title := "C", description := ""
         assigned_agent := "email_writer"
         status := TaskStatus.pending, sequence_order := 2
         depends_on := [1], input_data := [], output_data := [] }]
    active := true }

theorem taskManager_failure_counterexample :
    (runTrace c4ExState [TMEvent.failureNotice "worker crashed"]).1.taskStatus =
      TaskStatus.failed ∧
    (runTrace c4ExState [TMEvent.failureNotice "worker crashed"]).2 = [] ∧
    (runTrace c4ExState [TMEvent.failureNotice "worker crashed",
        TMEvent.completeNotice 2 [("k", "v")]]).2 =
      [{ subtask_id := 3, agent_type := "email_writer", title := "C"
         description := "", input_data := [("k", "v")] }] := by
  decide

/-- Witness for the amended C4 at concrete states. -/
theorem taskManager_completion_failure_witness :
    ((runTrace c3ExState [TMEvent.completeNotice 2 [("r", "done")]]).1.taskStatus =
        TaskStatus.completed →
      ∀ st ∈ (runTrace c3ExState
          [TMEvent.completeNotice 2 [("r", "done")]]).1.subtasks,
        st.status = TaskStatus.completed) ∧
    ((handleSubtaskComplete c3ExState 2
        [("r", "done")]).1.taskStatus = TaskStatus.completed) ∧
    ((handleTaskFailure c3ExState "boom").taskStatus = TaskStatus.failed ∧
      (handleTaskFailure c3ExState "boom").active = false ∧
      (handleTaskFailure c3ExState "boom").result_summary =
        "Fehler: " ++ "boom") ∧
    ((runTrace (handleTaskFailure c3ExState "boom")
        [TMEvent.sweep, TMEvent.sweep]).2 = []) ∧
    (∀ disp ∈ (dispatchReadySubtasks
        [{ id := 1, title := "A", description := ""
           assigned_agent := "prospect_finder"
           status := TaskStatus.failed, sequence_order := 0
           depends_on := [], input_data := [], output_data := [] },
         { id := 2, title := "B", description := ""
           assigned_agent := "research_manager"
           status := TaskStatus.pending, sequence_order := 1
           depends_on := [0], input_data := [], output_data := [] }]).2,
      disp.subtask_id ≠ 2) ∧
    ((step { taskStatus := TaskStatus.in_progress, progress_pct := 0
             result_summary := "", results := []
             subtasks :=
               [{ id := 1, title := "A", description := ""
                  assigned_agent := "prospect_finder"
                  status := TaskStatus.failed, sequence_order := 0
                  depends_on := [], input_data := [], output_data := [] }]
             active := true } TMEvent.sweep).1.taskStatus =
      TaskStatus.failed) := by
  refine ⟨?_, ?_, ?_, ?_, ?_, ?_⟩
  · exact taskManager_completion_failure.1 c3ExState
      [TMEvent.completeNotice 2 [("r", "done")]] (by decide)
  · exact taskManager_completion_failure.2.1 c3ExState 2
      [("r", "done")] (by decide)
  · exact taskManager_completion_failure.2.2.1 c3ExState "boom"
  · exact taskManager_completion_failure.2.2.2.1
      [TMEvent.sweep, TMEvent.sweep]
      (handleTaskFailure c3ExState "boom") (by decide) (by decide)
  · refine taskManager_completion_failure.2.2.2.2.1 _
      { id := 2, title := "B", description := ""
        assigned_agent := "research_manager"
        status := TaskStatus.pending, sequence_order := 1
        depends_on := [0], input_data := [], output_data := [] } 0
      (by decide) (by decide) (by decide) (by decide)
  · exact taskManager_completion_failure.2.2.2.2.2 _
      (by decide) (by decide) (by decide)

end AgentArmy
